import Mathlib

/-!
Verification of the salary-cleaning and analysis core of the job-postings
repository (`cleaning.py`, `analysis.py`).

Conventions of the shallow embedding:
* Python `float` values are modelled as `ℚ`.  All arithmetic the claims
  exercise (unit scaling, rounding to 2 decimal places with ties to even,
  comparisons, index ratios) is exact at the inputs considered.
* Fallible Python code (a `ValueError` from `float`, an `IndexError`,
  a `ZeroDivisionError`, a failing pandas scalar conversion) is modelled
  with `Option`: `none` means the call raises.
* Strings are processed over `List Char`; the embedding covers the ASCII
  fragment the data uses (`Char.isDigit` is the regex class `\d`).
-/

namespace JobPostings

/-- Character class of the regex `[\d(\.\d)?]+` in `find_salary`: a
character class containing the digits, `(`, `)`, `.` and `?`. -/
def isTokChar (c : Char) : Bool :=
  c.isDigit || c = '(' || c = ')' || c = '.' || c = '?'

/-- Accumulator pass splitting a string into the maximal runs of
`isTokChar` characters, i.e. `re.findall` for the pattern above. -/
def runsAux : List Char → List Char → List (List Char)
  | [], acc => if acc.isEmpty then [] else [acc.reverse]
  | c :: rest, acc =>
    if isTokChar c then runsAux rest (c :: acc)
    else if acc.isEmpty then runsAux rest [] else acc.reverse :: runsAux rest []

/-- All maximal matches of the numeric-token regex, in source order. -/
def findRuns (s : List Char) : List (List Char) :=
  runsAux s []

/-- Whether `pat` occurs at the head of `s`. -/
def matchHead : List Char → List Char → Bool
  | [], _ => true
  | _ :: _, [] => false
  | p :: ps, c :: cs => (p == c) && matchHead ps cs

/-- Index of the first occurrence of `pat` in `s` (Python `str.index`),
`none` when `pat` does not occur (Python raises `ValueError`). -/
def strIndex (pat : List Char) : List Char → Option Nat
  | [] => if matchHead pat [] then some 0 else none
  | c :: rest =>
    if matchHead pat (c :: rest) then some 0
    else (strIndex pat rest).map (· + 1)

/-- Substring membership, Python `pat in s`. -/
def containsSub (s pat : List Char) : Bool :=
  (strIndex pat s).isSome

/-- Value of a run of decimal digits. -/
def digitsVal (ds : List Char) : ℕ :=
  ds.foldl (fun a c => 10 * a + (c.toNat - 48)) 0

/-- Python `float` applied to a token drawn from the character class
above: it succeeds exactly when the token is made of digits and at most
one decimal point, with at least one digit. -/
def parseTok (t : List Char) : Option ℚ :=
  if t.all (fun c => c.isDigit || c = '.') &&
      t.any (fun c => c.isDigit) &&
      ((t.filter (fun c => c = '.')).length ≤ 1 : Bool) then
    let intPart := t.takeWhile (fun c => c != '.')
    let fracPart := (t.dropWhile (fun c => c != '.')).drop 1
    some ((digitsVal intPart : ℚ) + (digitsVal fracPart : ℚ) / (10 ^ fracPart.length))
  else
    none

/-- Round a rational to the nearest integer, ties to even: the rounding
Python `round` performs (exact at the values this development evaluates). -/
def roundHalfEven (x : ℚ) : ℤ :=
  let n := ⌊x⌋
  let r := x - (n : ℚ)
  if r < 1 / 2 then n
  else if 1 / 2 < r then n + 1
  else if n % 2 = 0 then n else n + 1

/-- Python `round(x, 2)`. -/
def round2 (x : ℚ) : ℚ :=
  (roundHalfEven (x * 100) : ℚ) / 100

/-- One iteration of the loop body of `find_salary` for the token `t`
inside the normalized string `s`: locate the first occurrence of `t`,
look at the character just after it, and scale by `k`/`m` suffixes. -/
def scaleToken (s t : List Char) : Option ℚ :=
  (strIndex t s).bind fun i =>
    (parseTok t).map fun v =>
      match s.get? (i + t.length) with
      | some 'k' => round2 (v * 1000)
      | some 'm' => round2 (v * 1000000)
      | _ => round2 v

/-- Sequential processing of the tokens; the first raising iteration
aborts the whole call. -/
def mapTokens (s : List Char) : List (List Char) → Option (List ℚ)
  | [] => some []
  | t :: ts => (scaleToken s t).bind fun v => (mapTokens s ts).map (v :: ·)

/-- `find_salary` from `cleaning.py`: lower-case, strip commas, find all
runs of the class `[\d(\.\d)?]+`, convert each with its `k`/`m` suffix. -/
def find_salary (salary_string : String) : Option (List ℚ) :=
  let s := (salary_string.data.map Char.toLower).filter (fun c => c != ',')
  mapTokens s (findRuns s)

/-- Hourly cue words of `determine_payment_frequency`. -/
def hourlyCues : List String := ["hr", "hourly", "hour"]

/-- Yearly cue words of `determine_payment_frequency`. -/
def yearlyCues : List String := ["yearly", "annual", "annum", "year", "yr"]

/-- Monthly cue words of `determine_payment_frequency`. -/
def monthlyCues : List String := ["monthly", "mo", "month"]

/-- Weekly cue words of `determine_payment_frequency`. -/
def weeklyCues : List String := ["week", "weekly"]

/-- Whether some cue of the list occurs in the string. -/
def cuePresent (cues : List String) (salary_string : String) : Bool :=
  cues.any (fun c => containsSub salary_string.data c.data)

/-- Maximum of a nonempty list of rationals (Python `max`). -/
def listMax (x : ℚ) (xs : List ℚ) : ℚ :=
  xs.foldl max x

/-- Minimum of a nonempty list of rationals (Python `min`). -/
def listMin (x : ℚ) (xs : List ℚ) : ℚ :=
  xs.foldl min x

/-- `determine_payment_frequency` from `cleaning.py`.  The four cue lists
are scanned in the source order; with no cue present, `max`/`min` of the
magnitudes drive the fallback, and raise on an empty list (`none`). -/
def determine_payment_frequency (salary_string : String) (salaries : List ℚ) :
    Option String :=
  if cuePresent hourlyCues salary_string then some "hourly"
  else if cuePresent yearlyCues salary_string then some "yearly"
  else if cuePresent monthlyCues salary_string then some "monthly"
  else if cuePresent weeklyCues salary_string then some "weekly"
  else
    match salaries with
    | [] => none
    | x :: xs =>
      if listMax x xs ≤ 500 then some "hourly"
      else if listMin x xs ≥ 35000 then some "yearly"
      else some "monthly"

/-- Values of the heterogeneous Python dict built by
`det_salary_range_and_frequency`: floats and strings. -/
inductive PyVal where
  | num : ℚ → PyVal
  | str : String → PyVal
deriving DecidableEq

/-- `det_salary_range_and_frequency` from `cleaning.py`: extract the
magnitudes, duplicate a singleton, classify the frequency, append it to
the list and read entries 0, 1, 2 back (`none` models the `IndexError`
when fewer than three entries exist). -/
def det_salary_range_and_frequency (salary_string : String) :
    Option (PyVal × PyVal × PyVal) :=
  (find_salary salary_string).bind fun sal0 =>
    let sal1 := if sal0.length = 1 then sal0 ++ sal0.take 1 else sal0
    (determine_payment_frequency salary_string sal1).bind fun freq =>
      let vals := sal1.map PyVal.num ++ [PyVal.str freq]
      match vals.get? 0, vals.get? 1, vals.get? 2 with
      | some a, some b, some c => some (a, b, c)
      | _, _, _ => none

/-- A row of the cleaned dataframe as `calculate_annual_compensation`
reads it: the two salary bounds and the frequency string. -/
structure SalaryRow where
  min_salary : ℚ
  max_salary : ℚ
  frequency : String
deriving DecidableEq

/-- Lookup of `row[key]` for the two salary columns; `none` models the
`KeyError` on any other key. -/
def rowSalary (row : SalaryRow) (key : String) : Option ℚ :=
  if key = "min_salary" then some row.min_salary
  else if key = "max_salary" then some row.max_salary
  else none

/-- `calculate_annual_compensation` from `cleaning.py`: `bound` is the
string `"min"` or `"max"`; hourly rows are scaled by `40 * 4 * 12`,
monthly rows by `12`, every other frequency falls through unscaled. -/
def calculate_annual_compensation (row : SalaryRow) (bound : String) : Option ℚ :=
  if row.frequency = "hourly" then
    (rowSalary row (bound ++ "_salary")).map (fun v => v * 40 * 4 * 12)
  else if row.frequency = "monthly" then
    (rowSalary row (bound ++ "_salary")).map (fun v => v * 12)
  else
    rowSalary row (bound ++ "_salary")

/-- `calc_min_comp` from `cleaning.py`. -/
def calc_min_comp (row : SalaryRow) : Option ℚ :=
  calculate_annual_compensation row "min"

/-- `calc_max_comp` from `cleaning.py`. -/
def calc_max_comp (row : SalaryRow) : Option ℚ :=
  calculate_annual_compensation row "max"

/-- A job row as `calculate_adjusted_salary` reads it; `mean_salary` is
`none` for a missing (NaN) value. -/
structure JobRow where
  city : String
  state : String
  mean_salary : Option ℚ
deriving DecidableEq

/-- A row of the city-level cost-of-living table. -/
structure CliRow where
  city : String
  state : String
  cost_of_living_index : ℚ
deriving DecidableEq

/-- The city-level cost-of-living dataframe: its rows, plus the derived
`city_state` column once the function has assigned it (`none` before). -/
structure CliTable where
  rows : List CliRow
  city_state : Option (List String)
deriving DecidableEq

/-- A row of the state-level cost-of-living table. -/
structure StateRow where
  state : String
  cost_of_living_index : ℚ
deriving DecidableEq

/-- An output job row: the input fields, the derived composite key, and
the adjusted salary (`none` for NaN). -/
structure JobOut where
  city : String
  state : String
  mean_salary : Option ℚ
  city_state : String
  adjusted_salary : Option ℚ
deriving DecidableEq

/-- The composite key `df.city.str.cat(df.state, sep=', ')`. -/
def cityStateKey (city state : String) : String :=
  city ++ ", " ++ state

/-- The `(city_state, cost_of_living_index)` pairs of the city table. -/
def cliPairs (t : CliTable) : List (String × ℚ) :=
  t.rows.map (fun r => (cityStateKey r.city r.state, r.cost_of_living_index))

/-- The `(state, cost_of_living_index)` pairs of the state table. -/
def statePairs (l : List StateRow) : List (String × ℚ) :=
  l.map (fun r => (r.state, r.cost_of_living_index))

/-- Python `float(df.loc[df.key == k, col])`: succeeds exactly when the
selection has a single row, returning its value. -/
def lookupOne (key : String) (tbl : List (String × ℚ)) : Option ℚ :=
  match tbl.filter (fun p => p.1 == key) with
  | [p] => some p.2
  | _ => none

/-- Python float division: raises (`none`) on a zero divisor. -/
def pydiv (a b : ℚ) : Option ℚ :=
  if b = 0 then none else some (a / b)

/-- Loop body of `calculate_adjusted_salary` for one job row.  The outer
`Option` is a raised error; the inner one is the NaN left in the
`adjusted_salary` column. -/
def adjustRow (cityTbl stTbl : List (String × ℚ)) (ref_cli : ℚ) (job : JobRow) :
    Option (Option ℚ) :=
  match job.mean_salary with
  | some m =>
    if cityTbl.any (fun p => p.1 == cityStateKey job.city job.state) then
      (lookupOne (cityStateKey job.city job.state) cityTbl).bind fun c =>
        (pydiv c ref_cli).map fun r => some (round2 (m * r))
    else if stTbl.any (fun p => p.1 == job.state) then
      (lookupOne job.state stTbl).bind fun c =>
        (pydiv c ref_cli).map fun r => some (round2 (m * r))
    else some none
  | none => some none

/-- Sequential row loop of `calculate_adjusted_salary`. -/
def adjustRows (cityTbl stTbl : List (String × ℚ)) (ref_cli : ℚ) :
    List JobRow → Option (List JobOut)
  | [] => some []
  | job :: rest =>
    (adjustRow cityTbl stTbl ref_cli job).bind fun adj =>
      (adjustRows cityTbl stTbl ref_cli rest).map
        (⟨job.city, job.state, job.mean_salary,
          cityStateKey job.city job.state, adj⟩ :: ·)

/-- `calculate_adjusted_salary` from `analysis.py`.  The job dataframe is
copied; the city-level table is mutated in place by the assignment of its
`city_state` column, so the returned pair carries the updated table.  The
reference index lookup raises when the reference key does not select
exactly one row. -/
def calculate_adjusted_salary (job_df : List JobRow) (cli_df : CliTable)
    (cli_state_df : List StateRow) (city : String) :
    Option (List JobOut × CliTable) :=
  let cli2 : CliTable :=
    { cli_df with city_state := some (cli_df.rows.map (fun r => cityStateKey r.city r.state)) }
  (lookupOne city (cliPairs cli_df)).bind fun ref_cli =>
    (adjustRows (cliPairs cli_df) (statePairs cli_state_df) ref_cli job_df).map
      (fun outs => (outs, cli2))

/-- Reference classifier written from the specification's wording: check
the cue groups in the stated fixed order (hourly, yearly, monthly,
weekly) and return the first group found; with no cue present, fall back
to the magnitude heuristics (hourly when the maximum is at most 500,
yearly when the minimum is at least 35000, monthly otherwise).  The
empty-list case is irrelevant to the claim, which assumes a non-empty
magnitude list. -/
def freqClaim (salary_string : String) (salaries : List ℚ) : String :=
  if cuePresent hourlyCues salary_string then "hourly"
  else if cuePresent yearlyCues salary_string then "yearly"
  else if cuePresent monthlyCues salary_string then "monthly"
  else if cuePresent weeklyCues salary_string then "weekly"
  else
    match salaries with
    | [] => "monthly"
    | x :: xs =>
      if listMax x xs ≤ 500 then "hourly"
      else if listMin x xs ≥ 35000 then "yearly"
      else "monthly"

/-- Reference per-row adjusted salary written from the specification's
wording: a missing mean stays missing; otherwise the first matching
city-level entry scales the mean by (city index / reference index), else
the first matching state-level entry scales it by (state index /
reference index), else the value stays missing; the result is rounded to
2 decimal places. -/
def claimAdjusted (ref_cli : ℚ) (cityTbl stTbl : List (String × ℚ))
    (job : JobRow) : Option ℚ :=
  match job.mean_salary with
  | none => none
  | some m =>
    match cityTbl.find? (fun p => p.1 == cityStateKey job.city job.state) with
    | some p => some (round2 (m * (p.2 / ref_cli)))
    | none =>
      match stTbl.find? (fun p => p.1 == job.state) with
      | some p => some (round2 (m * (p.2 / ref_cli)))
      | none => none

/-- A one-row city-level cost-of-living table used as concrete input. -/
def cliChicago : CliTable :=
  ⟨[⟨"Chicago", "IL", 100⟩], none⟩

/-- The table `cliChicago` as it stands after `calculate_adjusted_salary`
has assigned its `city_state` column. -/
def cliChicagoAfter : CliTable :=
  ⟨[⟨"Chicago", "IL", 100⟩], some ["Chicago, IL"]⟩

/-- A job row located in the reference city whose mean salary `1/8`
(`0.125`, exactly representable) does not lie on the cent grid. -/
def jobEighth : JobRow :=
  ⟨"Chicago", "IL", some (1 / 8)⟩

theorem roundHalfEven_intCast (n : ℤ) : roundHalfEven (n : ℚ) = n := by
  unfold roundHalfEven
  simp [Int.floor_intCast]

theorem round2_fix (x : ℚ) (n : ℤ) (h : x * 100 = (n : ℚ)) : round2 x = x := by
  unfold round2
  rw [h, roundHalfEven_intCast, eq_comm, eq_div_iff (by norm_num : (100 : ℚ) ≠ 0)]
  exact h

theorem isDigit_iff (c : Char) : c.isDigit = true ↔ 48 ≤ c.toNat ∧ c.toNat ≤ 57 := by
  simp only [Char.isDigit, Char.toNat, Bool.and_eq_true, decide_eq_true_eq,
    UInt32.le_def, BitVec.le_def, ge_iff_le]
  constructor
  · rintro ⟨h1, h2⟩
    exact ⟨h1, h2⟩
  · rintro ⟨h1, h2⟩
    exact ⟨h1, h2⟩

theorem toLower_eq_or (c : Char) :
    Char.toLower c = c ∨
      (97 ≤ (Char.toLower c).toNat ∧ (Char.toLower c).toNat ≤ 122) := by
  simp only [Char.toLower]
  by_cases h : c.toNat ≥ 65 ∧ c.toNat ≤ 90
  · rw [if_pos h]
    right
    have hv : (c.toNat + 32).isValidChar := Or.inl (by omega)
    have he : Char.ofNat (c.toNat + 32) = Char.ofNatAux (c.toNat + 32) hv :=
      dif_pos hv
    rw [he]
    have ht : (Char.ofNatAux (c.toNat + 32) hv).toNat = c.toNat + 32 := rfl
    rw [ht]
    omega
  · rw [if_neg h]
    left
    rfl

theorem isDigit_toLower (c : Char) (h : (Char.toLower c).isDigit = true) :
    c.isDigit = true := by
  rcases toLower_eq_or c with he | ⟨h1, h2⟩
  · rwa [he] at h
  · exfalso
    have := (isDigit_iff (Char.toLower c)).1 h
    omega

theorem isTokChar_toLower (c : Char) (h : isTokChar (Char.toLower c) = true) :
    isTokChar c = true := by
  rcases toLower_eq_or c with he | ⟨h1, h2⟩
  · rwa [he] at h
  · exfalso
    unfold isTokChar at h
    simp only [Bool.or_eq_true, decide_eq_true_eq] at h
    rcases h with ((((hd | hlp) | hrp) | hdot) | hq)
    · have := (isDigit_iff (Char.toLower c)).1 hd
      omega
    · rw [hlp] at h1
      exact absurd h1 (by decide)
    · rw [hrp] at h1
      exact absurd h1 (by decide)
    · rw [hdot] at h1
      exact absurd h1 (by decide)
    · rw [hq] at h1
      exact absurd h1 (by decide)

theorem runsAux_eq_nil (s acc : List Char)
    (hs : ∀ c ∈ s, isTokChar c = false) (ha : acc = []) :
    runsAux s acc = [] := by
  induction s with
  | nil => simp [runsAux, ha]
  | cons c rest ih =>
    have hc : isTokChar c = false := hs c (List.mem_cons_self c rest)
    have hrest : ∀ x ∈ rest, isTokChar x = false :=
      fun x hx => hs x (List.mem_cons_of_mem c hx)
    subst ha
    simp only [runsAux, hc, Bool.false_eq_true, if_false, List.isEmpty_nil,
      if_true]
    exact ih hrest

theorem runsAux_chars (s : List Char) :
    ∀ acc t, t ∈ runsAux s acc → ∀ c ∈ t, c ∈ s ∨ c ∈ acc := by
  induction s with
  | nil =>
    intro acc t ht c hc
    right
    simp only [runsAux] at ht
    split at ht
    · simp at ht
    · rw [List.mem_singleton] at ht
      subst ht
      exact List.mem_reverse.1 hc
  | cons a rest ih =>
    intro acc t ht c hc
    simp only [runsAux] at ht
    split at ht
    · rcases ih (a :: acc) t ht c hc with h | h
      · exact Or.inl (List.mem_cons_of_mem a h)
      · rcases List.mem_cons.1 h with rfl | h
        · exact Or.inl (List.mem_cons_self c rest)
        · exact Or.inr h
    · split at ht
      · rcases ih [] t ht c hc with h | h
        · exact Or.inl (List.mem_cons_of_mem a h)
        · simp at h
      · rcases List.mem_cons.1 ht with rfl | ht
        · exact Or.inr (List.mem_reverse.1 hc)
        · rcases ih [] t ht c hc with h | h
          · exact Or.inl (List.mem_cons_of_mem a h)
          · simp at h

theorem runsAux_ne_nil (s : List Char) :
    ∀ acc t, t ∈ runsAux s acc → t ≠ [] := by
  induction s with
  | nil =>
    intro acc t ht
    simp only [runsAux] at ht
    split at ht
    · simp at ht
    · rename_i hne
      rw [List.mem_singleton] at ht
      subst ht
      simpa [List.isEmpty_iff] using hne
  | cons a rest ih =>
    intro acc t ht
    simp only [runsAux] at ht
    split at ht
    · exact ih (a :: acc) t ht
    · split at ht
      · exact ih [] t ht
      · rename_i hne
        rcases List.mem_cons.1 ht with rfl | ht
        · simpa [List.isEmpty_iff] using hne
        · exact ih [] t ht

theorem parseTok_none_of_no_digit (t : List Char)
    (h : t.any (fun c => c.isDigit) = false) : parseTok t = none := by
  unfold parseTok
  rw [if_neg]
  intro hcond
  simp only [Bool.and_eq_true] at hcond
  rw [h] at hcond
  exact Bool.false_ne_true hcond.1.2

theorem scaleToken_none_of_no_digit (s t : List Char)
    (h : t.any (fun c => c.isDigit) = false) : scaleToken s t = none := by
  unfold scaleToken
  rw [parseTok_none_of_no_digit t h]
  cases strIndex t s <;> rfl

/-- The filtered, lower-cased working string of `find_salary`. -/
theorem find_salary_eq (s : String) :
    find_salary s =
      mapTokens ((s.data.map Char.toLower).filter (fun c => c != ','))
        (findRuns ((s.data.map Char.toLower).filter (fun c => c != ','))) := rfl

/-- CLAIM C1 (corrected, counterexample): the input `"."` contains no
digit, yet `find_salary` raises (`float('.')` is a `ValueError`) instead
of returning the empty list. -/
theorem find_salary_dot_raises :
    (("." : String).data.any (fun c => c.isDigit)) = false ∧
      find_salary "." = none := by
  constructor
  · decide
  · rfl

/-- CLAIM C1 (amended): on an input with no digit, any successful run of
`find_salary` returns the empty list, and when the input also contains
none of the characters of the token class (`.`, `(`, `)`, `?`) the call
succeeds with the empty list; inputs containing those characters but no
digit may raise instead. -/
theorem find_salary_no_digit (s : String)
    (hd : s.data.all (fun c => !c.isDigit) = true) :
    (∀ l, find_salary s = some l → l = []) ∧
    (s.data.all (fun c => !isTokChar c) = true → find_salary s = some []) := by
  have hall : ∀ c ∈ s.data, c.isDigit = false := by
    intro c hc
    have := List.all_eq_true.1 hd c hc
    simpa using this
  set w := (s.data.map Char.toLower).filter (fun c => c != ',') with hw
  have hwd : ∀ c ∈ w, c.isDigit = false := by
    intro c hc
    rcases List.mem_filter.1 hc with ⟨hcm, _⟩
    rcases List.mem_map.1 hcm with ⟨c0, hc0, rfl⟩
    rcases Bool.eq_false_or_eq_true (Char.toLower c0).isDigit with h | h
    · exact absurd (isDigit_toLower c0 h) (by simp [hall c0 hc0])
    · exact h
  constructor
  · intro l hl
    rw [find_salary_eq] at hl
    rcases hrun : findRuns w with _ | ⟨t, ts⟩
    · rw [← hw, hrun] at hl
      simpa [mapTokens] using hl.symm
    · exfalso
      have htmem : t ∈ runsAux w [] := by
        rw [← findRuns]
        rw [hrun]
        exact List.mem_cons_self t ts
      have htd : t.any (fun c => c.isDigit) = false := by
        rw [List.any_eq_false]
        intro c hc
        rcases runsAux_chars w [] t htmem c hc with h | h
        · simp [hwd c h]
        · simp at h
      rw [← hw, hrun] at hl
      simp only [mapTokens, scaleToken_none_of_no_digit w t htd,
        Option.bind] at hl
      exact Option.noConfusion hl
  · intro htok
    have hwt : ∀ c ∈ w, isTokChar c = false := by
      intro c hc
      rcases List.mem_filter.1 hc with ⟨hcm, _⟩
      rcases List.mem_map.1 hcm with ⟨c0, hc0, rfl⟩
      rcases Bool.eq_false_or_eq_true (isTokChar (Char.toLower c0)) with h | h
      · have := List.all_eq_true.1 htok c0 hc0
        exact absurd (isTokChar_toLower c0 h) (by simpa using this)
      · exact h
    rw [find_salary_eq, ← hw, findRuns, runsAux_eq_nil w [] hwt rfl]
    rfl

/-- CLAIM C1 (witness for the amended theorem): the digit-free doctest
input `"afdslk"` yields the empty list without raising. -/
theorem find_salary_no_digit_witness : find_salary "afdslk" = some [] :=
  (find_salary_no_digit "afdslk" (by decide)).2 (by decide)

/-- CLAIM C5 (confirmed): `find_salary` returns exactly the documented
magnitudes, in source order, on the four doctest inputs: a plain dollar
range, a `k`-suffixed range, an `M`/`m`-suffixed range and a decimal
range. -/
theorem find_salary_doctest_values :
    find_salary "$356-$235" = some [356, 235] ∧
    find_salary "235k-45k" = some [235000, 45000] ∧
    find_salary "$456M-678m" = some [456000000, 678000000] ∧
    find_salary "$456.67-678.56" = some [456.67, 678.56] := by
  refine ⟨?_, ?_, ?_, ?_⟩ <;>
    simp +decide [find_salary, findRuns, runsAux, mapTokens, scaleToken,
      strIndex, matchHead, parseTok, digitsVal, isTokChar]
  · exact ⟨round2_fix _ 35600 (by norm_num), round2_fix _ 23500 (by norm_num)⟩
  · constructor
    · rw [round2_fix _ 23500000 (by norm_num)]
      norm_num
    · rw [round2_fix _ 4500000 (by norm_num)]
      norm_num
  · constructor
    · rw [round2_fix _ 45600000000 (by norm_num)]
      norm_num
    · rw [round2_fix _ 67800000000 (by norm_num)]
      norm_num
  · constructor
    · rw [round2_fix _ 45667 (by norm_num)]
      norm_num
    · rw [round2_fix _ 67856 (by norm_num)]
      norm_num

/-- CLAIM C2 (confirmed): on a non-empty magnitude list the classifier
agrees with the claim's reference function `freqClaim` — cue groups in
the fixed order hourly, yearly, monthly, weekly, first hit wins, then the
magnitude fallback (hourly when the maximum is at most 500, else yearly
when the minimum is at least 35000, else monthly) — and with no cue
present it never answers weekly. -/
theorem determine_payment_frequency_spec (s : String) (sal : List ℚ)
    (h : sal ≠ []) :
    determine_payment_frequency s sal = some (freqClaim s sal) ∧
    (cuePresent hourlyCues s = false → cuePresent yearlyCues s = false →
     cuePresent monthlyCues s = false → cuePresent weeklyCues s = false →
     determine_payment_frequency s sal ≠ some "weekly") := by
  rcases sal with _ | ⟨x, xs⟩
  · exact absurd rfl h
  · constructor
    · unfold determine_payment_frequency freqClaim
      split_ifs
      · rfl
      · rfl
      · rfl
      · rfl
      · show (if listMax x xs ≤ 500 then (some "hourly" : Option String)
              else if listMin x xs ≥ 35000 then some "yearly"
              else some "monthly") =
            some (if listMax x xs ≤ 500 then "hourly"
                  else if listMin x xs ≥ 35000 then "yearly" else "monthly")
        split_ifs <;> rfl
    · intro h1 h2 h3 h4
      unfold determine_payment_frequency
      rw [h1, h2, h3, h4]
      simp only [Bool.false_eq_true, if_false]
      show (if listMax x xs ≤ 500 then (some "hourly" : Option String)
            else if listMin x xs ≥ 35000 then some "yearly"
            else some "monthly") ≠ some "weekly"
      split_ifs <;> simp

/-- CLAIM C2 (witness): the doctest magnitude-fallback input. -/
theorem determine_payment_frequency_spec_witness :
    determine_payment_frequency "$345" [(345 : ℚ)] =
      some (freqClaim "$345" [(345 : ℚ)]) ∧
    (cuePresent hourlyCues "$345" = false →
     cuePresent yearlyCues "$345" = false →
     cuePresent monthlyCues "$345" = false →
     cuePresent weeklyCues "$345" = false →
     determine_payment_frequency "$345" [(345 : ℚ)] ≠ some "weekly") :=
  determine_payment_frequency_spec "$345" [(345 : ℚ)] (by simp)

/-- CLAIM C10 (confirmed): when any of the thirteen cadence cues occurs
in the string, the classifier's answer does not depend on the magnitude
list at all, so it also succeeds on an empty list. -/
theorem determine_cue_ignores_magnitudes (s : String)
    (h : cuePresent (hourlyCues ++ yearlyCues ++ monthlyCues ++ weeklyCues) s
        = true) :
    ∃ f, ∀ sal, determine_payment_frequency s sal = some f := by
  by_cases h1 : cuePresent hourlyCues s
  · exact ⟨"hourly", fun sal => by simp [determine_payment_frequency, h1]⟩
  · by_cases h2 : cuePresent yearlyCues s
    · exact ⟨"yearly", fun sal => by simp [determine_payment_frequency, h1, h2]⟩
    · by_cases h3 : cuePresent monthlyCues s
      · exact ⟨"monthly",
          fun sal => by simp [determine_payment_frequency, h1, h2, h3]⟩
      · by_cases h4 : cuePresent weeklyCues s
        · exact ⟨"weekly",
            fun sal => by simp [determine_payment_frequency, h1, h2, h3, h4]⟩
        · exfalso
          unfold cuePresent at h h1 h2 h3 h4
          simp only [List.any_append, Bool.or_eq_true] at h
          rcases h with ((ha | hb) | hc) | hd
          · exact h1 ha
          · exact h2 hb
          · exact h3 hc
          · exact h4 hd

/-- CLAIM C10 (witness): the hourly-cue doctest string classifies the
same way whatever the magnitude list, including the empty one. -/
theorem determine_cue_ignores_magnitudes_witness :
    ∃ f, ∀ sal, determine_payment_frequency "$345 hr" sal = some f :=
  determine_cue_ignores_magnitudes "$345 hr" (by decide)

/-- CLAIM C3 (confirmed): for either bound selector the annualizer
returns the selected bound times 1920 for hourly rows, times 12 for
monthly rows and unchanged otherwise; in particular a weekly row takes
the same identity branch as a yearly one and is never multiplied by 52. -/
theorem calculate_annual_compensation_spec (row : SalaryRow) (bound : String)
    (h : bound = "min" ∨ bound = "max") :
    ∃ v, rowSalary row (bound ++ "_salary") = some v ∧
      calculate_annual_compensation row bound =
        some (v * (if row.frequency = "hourly" then 1920
                   else if row.frequency = "monthly" then 12 else 1)) ∧
      (row.frequency = "weekly" →
        calculate_annual_compensation row bound = some v) := by
  have hv : ∃ v, rowSalary row (bound ++ "_salary") = some v := by
    rcases h with rfl | rfl
    · exact ⟨row.min_salary, rfl⟩
    · exact ⟨row.max_salary, rfl⟩
  rcases hv with ⟨v, hv⟩
  refine ⟨v, hv, ?_, ?_⟩
  · unfold calculate_annual_compensation
    by_cases hf1 : row.frequency = "hourly"
    · simp only [hf1, if_true, if_pos rfl, hv, Option.map_some']
      congr 1
      ring
    · by_cases hf2 : row.frequency = "monthly"
      · simp +decide only [hf1, hf2, if_false, if_true, hv, Option.map_some',
          if_neg, if_pos]
      · simp only [hf1, hf2, if_false, hv, mul_one]
  · intro hw
    unfold calculate_annual_compensation
    simp +decide [hw, hv]

/-- CLAIM C3 (witness): a weekly row with min bound 10 annualizes to 10
itself (identity branch), matching the multiplier table with factor 1. -/
theorem calculate_annual_compensation_spec_witness :
    ∃ v, rowSalary ⟨10, 20, "weekly"⟩ ("min" ++ "_salary") = some v ∧
      calculate_annual_compensation ⟨10, 20, "weekly"⟩ "min" =
        some (v * (if (("weekly" : String) = "hourly") then 1920
                   else if (("weekly" : String) = "monthly") then 12 else 1)) ∧
      ((("weekly" : String) = "weekly") →
        calculate_annual_compensation ⟨10, 20, "weekly"⟩ "min" = some v) :=
  calculate_annual_compensation_spec ⟨10, 20, "weekly"⟩ "min" (Or.inl rfl)

theorem determine_isSome (s : String) (x : ℚ) (xs : List ℚ) :
    ∃ f, determine_payment_frequency s (x :: xs) = some f := by
  unfold determine_payment_frequency
  split_ifs
  · exact ⟨_, rfl⟩
  · exact ⟨_, rfl⟩
  · exact ⟨_, rfl⟩
  · exact ⟨_, rfl⟩
  · show ∃ f, (if listMax x xs ≤ 500 then (some "hourly" : Option String)
        else if listMin x xs ≥ 35000 then some "yearly"
        else some "monthly") = some f
    split_ifs <;> exact ⟨_, rfl⟩

/-- CLAIM C4 (confirmed): when extraction produces exactly one magnitude,
the normalizer duplicates it before the classifier runs, so the returned
record has min and max both equal to that magnitude and the frequency is
the one classified on the duplicated two-element list. -/
theorem det_salary_range_single (s : String) (x : ℚ)
    (h : find_salary s = some [x]) :
    ∃ f, determine_payment_frequency s [x, x] = some f ∧
      det_salary_range_and_frequency s =
        some (PyVal.num x, PyVal.num x, PyVal.str f) := by
  rcases determine_isSome s x [x] with ⟨f, hf⟩
  refine ⟨f, hf, ?_⟩
  unfold det_salary_range_and_frequency
  rw [h]
  show (determine_payment_frequency s
      (if ([x] : List ℚ).length = 1 then [x] ++ [x].take 1 else [x])).bind _ =
    _
  have hsl : (if ([x] : List ℚ).length = 1 then [x] ++ [x].take 1 else [x])
      = [x, x] := by simp
  rw [hsl, hf]
  rfl

theorem find_salary_345hr : find_salary "$345 hr" = some [345] := by
  simp +decide [find_salary, findRuns, runsAux, mapTokens, scaleToken,
    strIndex, matchHead, parseTok, digitsVal, isTokChar]
  exact round2_fix _ 34500 (by norm_num)

/-- CLAIM C4 (witness): the single-magnitude input yields a record with
both bounds 345 and the frequency classified on the duplicated list. -/
theorem det_salary_range_single_witness :
    ∃ f, determine_payment_frequency "$345 hr" [(345 : ℚ), 345] = some f ∧
      det_salary_range_and_frequency "$345 hr" =
        some (PyVal.num 345, PyVal.num 345, PyVal.str f) :=
  det_salary_range_single "$345 hr" 345 find_salary_345hr

theorem find_eq_of_filter_singleton {α : Type} (f : α → Bool) (l : List α)
    (p : α) (h : l.filter f = [p]) : l.find? f = some p := by
  induction l with
  | nil => simp at h
  | cons a rest ih =>
    by_cases ha : f a
    · rw [List.filter_cons_of_pos ha] at h
      rcases List.cons_eq_cons.1 h with ⟨rfl, -⟩
      rw [List.find?_cons_of_pos _ ha]
    · rw [List.filter_cons_of_neg ha] at h
      rw [List.find?_cons_of_neg _ ha]
      exact ih h

theorem lookupOne_find (key : String) (tbl : List (String × ℚ)) (v : ℚ)
    (h : lookupOne key tbl = some v) :
    tbl.find? (fun p => p.1 == key) = some (key, v) := by
  unfold lookupOne at h
  rcases hf : tbl.filter (fun p => p.1 == key) with _ | ⟨p, ps⟩
  · rw [hf] at h
    exact Option.noConfusion h
  · rcases ps with _ | ⟨q, qs⟩
    · rw [hf] at h
      have hpmem : p ∈ tbl.filter (fun r => r.1 == key) := by
        rw [hf]
        exact List.mem_singleton_self p
      have hp : (p.1 == key) = true := (List.mem_filter.1 hpmem).2
      have hv : p.2 = v := Option.some.inj h
      have h1 : p.1 = key := by simpa using hp
      rw [find_eq_of_filter_singleton _ _ _ hf]
      have hpkv : p = (key, v) := by
        rcases p with ⟨a, b⟩
        simp only [Prod.mk.injEq]
        exact ⟨h1, hv⟩
      rw [hpkv]
    · rw [hf] at h
      exact Option.noConfusion h

theorem lookupOne_any (key : String) (tbl : List (String × ℚ)) (v : ℚ)
    (h : lookupOne key tbl = some v) :
    tbl.any (fun p => p.1 == key) = true := by
  have := lookupOne_find key tbl v h
  rw [List.any_eq_true]
  exact ⟨(key, v), List.mem_of_find?_eq_some this, by simp⟩

theorem pydiv_some (a b : ℚ) (r : ℚ) (h : pydiv a b = some r) : r = a / b := by
  unfold pydiv at h
  split at h
  · exact Option.noConfusion h
  · exact (Option.some.inj h).symm

theorem adjustRow_claim (cityTbl stTbl : List (String × ℚ)) (ref_cli : ℚ)
    (job : JobRow) (adj : Option ℚ)
    (h : adjustRow cityTbl stTbl ref_cli job = some adj) :
    adj = claimAdjusted ref_cli cityTbl stTbl job := by
  unfold adjustRow at h
  unfold claimAdjusted
  cases hms : job.mean_salary with
  | none =>
    simp only [hms] at h
    exact (Option.some.inj h).symm
  | some m =>
    simp only [hms] at h
    by_cases hc : cityTbl.any (fun p => p.1 == cityStateKey job.city job.state)
    · rw [if_pos hc] at h
      rcases hl : lookupOne (cityStateKey job.city job.state) cityTbl with _ | c
      · rw [hl] at h
        exact Option.noConfusion h
      · rw [hl] at h
        simp only [Option.some_bind] at h
        rcases hd : pydiv c ref_cli with _ | r
        · rw [hd] at h
          exact Option.noConfusion h
        · rw [hd] at h
          simp only [Option.map_some'] at h
          have hadj : adj = some (round2 (m * r)) := (Option.some.inj h).symm
          rw [lookupOne_find _ _ _ hl]
          rw [hadj, pydiv_some _ _ _ hd]
    · rw [if_neg hc] at h
      have hfc : cityTbl.find? (fun p => p.1 == cityStateKey job.city job.state)
          = none := by
        rw [List.find?_eq_none]
        intro p hp hpk
        exact hc (List.any_eq_true.2 ⟨p, hp, hpk⟩)
      rw [hfc]
      by_cases hs : stTbl.any (fun p => p.1 == job.state)
      · rw [if_pos hs] at h
        rcases hl : lookupOne job.state stTbl with _ | c
        · rw [hl] at h
          exact Option.noConfusion h
        · rw [hl] at h
          simp only [Option.some_bind] at h
          rcases hd : pydiv c ref_cli with _ | r
          · rw [hd] at h
            exact Option.noConfusion h
          · rw [hd] at h
            simp only [Option.map_some'] at h
            have hadj : adj = some (round2 (m * r)) := (Option.some.inj h).symm
            rw [lookupOne_find _ _ _ hl]
            rw [hadj, pydiv_some _ _ _ hd]
      · rw [if_neg hs] at h
        have hfs : stTbl.find? (fun p => p.1 == job.state) = none := by
          rw [List.find?_eq_none]
          intro p hp hpk
          exact hs (List.any_eq_true.2 ⟨p, hp, hpk⟩)
        rw [hfs]
        exact (Option.some.inj h).symm

theorem adjustRows_get (cityTbl stTbl : List (String × ℚ)) (ref_cli : ℚ) :
    ∀ (jobs : List JobRow) (outs : List JobOut),
      adjustRows cityTbl stTbl ref_cli jobs = some outs →
      outs.length = jobs.length ∧
      ∀ i (hi : i < jobs.length) (ho : i < outs.length),
        ∃ adj, adjustRow cityTbl stTbl ref_cli (jobs.get ⟨i, hi⟩) = some adj ∧
          outs.get ⟨i, ho⟩ =
            ⟨(jobs.get ⟨i, hi⟩).city, (jobs.get ⟨i, hi⟩).state,
             (jobs.get ⟨i, hi⟩).mean_salary,
             cityStateKey (jobs.get ⟨i, hi⟩).city (jobs.get ⟨i, hi⟩).state,
             adj⟩ := by
  intro jobs
  induction jobs with
  | nil =>
    intro outs h
    have : outs = [] := (Option.some.inj h).symm
    subst this
    exact ⟨rfl, fun i hi => absurd hi (Nat.not_lt_zero i)⟩
  | cons job rest ih =>
    intro outs h
    unfold adjustRows at h
    rcases ha : adjustRow cityTbl stTbl ref_cli job with _ | adj
    · rw [ha] at h
      exact Option.noConfusion h
    · rw [ha] at h
      simp only [Option.some_bind] at h
      rcases hr : adjustRows cityTbl stTbl ref_cli rest with _ | outs0
      · rw [hr] at h
        exact Option.noConfusion h
      · rw [hr] at h
        simp only [Option.map_some'] at h
        have houts : outs =
            ⟨job.city, job.state, job.mean_salary,
             cityStateKey job.city job.state, adj⟩ :: outs0 :=
          (Option.some.inj h).symm
        subst houts
        rcases ih outs0 hr with ⟨hlen, hget⟩
        refine ⟨by simpa using hlen, ?_⟩
        intro i hi ho
        cases i with
        | zero => exact ⟨adj, ha, rfl⟩
        | succ j =>
          have hj : j < rest.length := Nat.lt_of_succ_lt_succ hi
          have hoj : j < outs0.length := Nat.lt_of_succ_lt_succ ho
          exact hget j hj hoj

theorem calculate_eq_some {jobs : List JobRow} {cli : CliTable}
    {st : List StateRow} {city : String} {outs : List JobOut} {cli2 : CliTable}
    (h : calculate_adjusted_salary jobs cli st city = some (outs, cli2)) :
    ∃ ref, lookupOne city (cliPairs cli) = some ref ∧
      adjustRows (cliPairs cli) (statePairs st) ref jobs = some outs ∧
      cli2 = ⟨cli.rows,
        some (cli.rows.map (fun r => cityStateKey r.city r.state))⟩ := by
  unfold calculate_adjusted_salary at h
  rcases hr : lookupOne city (cliPairs cli) with _ | ref
  · rw [hr] at h
    exact Option.noConfusion h
  · rw [hr] at h
    simp only [Option.some_bind] at h
    rcases ha : adjustRows (cliPairs cli) (statePairs st) ref jobs with _ | outs0
    · rw [ha] at h
      exact Option.noConfusion h
    · rw [ha] at h
      simp only [Option.map_some'] at h
      have hinj := Prod.mk.injEq .. ▸ Option.some.inj h
      refine ⟨ref, rfl, ?_, ?_⟩
      · rw [ha, hinj.1]
      · exact hinj.2.symm

/-- CLAIM C9 (confirmed): when no row of the city-level table carries the
reference key, the adjustment raises (the unguarded scalar conversion of
an empty selection) instead of computing any adjusted salary. -/
theorem calculate_adjusted_salary_ref_absent (jobs : List JobRow)
    (cli : CliTable) (st : List StateRow) (city : String)
    (h : ∀ r ∈ cli.rows, cityStateKey r.city r.state ≠ city) :
    calculate_adjusted_salary jobs cli st city = none := by
  have hfil : (cliPairs cli).filter (fun p => p.1 == city) = [] := by
    rw [List.filter_eq_nil_iff]
    intro p hp
    rcases List.mem_map.1 hp with ⟨r, hr, rfl⟩
    simp [h r hr]
  have hl : lookupOne city (cliPairs cli) = none := by
    unfold lookupOne
    rw [hfil]
  unfold calculate_adjusted_salary
  rw [hl]
  rfl

/-- CLAIM C9 (witness): a table holding only New York lacks the Chicago
reference key, so the call fails. -/
theorem calculate_adjusted_salary_ref_absent_witness :
    calculate_adjusted_salary [] ⟨[⟨"NYC", "NY", 100⟩], none⟩ []
      "Chicago, IL" = none :=
  calculate_adjusted_salary_ref_absent _ _ _ _ (by decide)

/-- CLAIM C6 (corrected, counterexample): the city-level cost-of-living
table is not left unchanged: even with an empty job list, the call hands
back the table with its freshly assigned `city_state` column, which
differs from the value passed in. -/
theorem calculate_adjusted_salary_mutates_city_table :
    (calculate_adjusted_salary [] cliChicago [] "Chicago, IL").map Prod.snd =
      some cliChicagoAfter ∧ cliChicagoAfter ≠ cliChicago := by
  constructor
  · rfl
  · intro heq
    simp [cliChicagoAfter, cliChicago] at heq

/-- CLAIM C6 (amended): the state-level table is only read, and the
mutation of the city-level table is exactly the assignment of the derived
`city_state` column — its city, state and index data come back
unchanged. -/
theorem calculate_adjusted_salary_frame (jobs : List JobRow) (cli : CliTable)
    (st : List StateRow) (city : String) (outs : List JobOut)
    (cli2 : CliTable)
    (h : calculate_adjusted_salary jobs cli st city = some (outs, cli2)) :
    cli2.rows = cli.rows ∧
      cli2.city_state =
        some (cli.rows.map (fun r => cityStateKey r.city r.state)) := by
  rcases calculate_eq_some h with ⟨ref, -, -, rfl⟩
  exact ⟨rfl, rfl⟩

/-- CLAIM C6 (witness for the amended theorem): the concrete one-row
table keeps its rows and gains exactly the derived key column. -/
theorem calculate_adjusted_salary_frame_witness :
    cliChicagoAfter.rows = cliChicago.rows ∧
      cliChicagoAfter.city_state =
        some (cliChicago.rows.map (fun r => cityStateKey r.city r.state)) :=
  calculate_adjusted_salary_frame [] cliChicago [] "Chicago, IL" []
    cliChicagoAfter rfl

/-- CLAIM C7 (confirmed): on a successful run, every output row's
adjusted salary follows the claim's case analysis `claimAdjusted`: a
missing mean stays missing, otherwise a matching composite city key
scales the mean by (city index / reference index), else a matching state
scales it by (state index / reference index), else it stays missing,
always rounded to 2 decimal places. -/
theorem calculate_adjusted_salary_rowwise (jobs : List JobRow)
    (cli : CliTable) (st : List StateRow) (city : String)
    (outs : List JobOut) (cli2 : CliTable)
    (h : calculate_adjusted_salary jobs cli st city = some (outs, cli2)) :
    ∃ ref, lookupOne city (cliPairs cli) = some ref ∧
      outs.length = jobs.length ∧
      ∀ i (hi : i < jobs.length) (ho : i < outs.length),
        (outs.get ⟨i, ho⟩).adjusted_salary =
          claimAdjusted ref (cliPairs cli) (statePairs st)
            (jobs.get ⟨i, hi⟩) := by
  rcases calculate_eq_some h with ⟨ref, href, hrows, -⟩
  rcases adjustRows_get _ _ _ _ _ hrows with ⟨hlen, hget⟩
  refine ⟨ref, href, hlen, ?_⟩
  intro i hi ho
  rcases hget i hi ho with ⟨adj, hadj, hout⟩
  rw [hout]
  exact adjustRow_claim _ _ _ _ _ hadj

theorem pydiv_100 : pydiv (100 : ℚ) 100 = some 1 := by
  unfold pydiv
  rw [if_neg (by norm_num : ¬((100 : ℚ) = 0))]
  norm_num

theorem round2_200 : round2 (200 : ℚ) = 200 :=
  round2_fix _ 20000 (by norm_num)

theorem calc_run_example :
    calculate_adjusted_salary
      [⟨"Chicago", "IL", some 200⟩, ⟨"Springfield", "IL", none⟩]
      cliChicago [] "Chicago, IL" =
      some ([⟨"Chicago", "IL", some 200, "Chicago, IL", some 200⟩,
             ⟨"Springfield", "IL", none, "Springfield, IL", none⟩],
            cliChicagoAfter) := by
  simp +decide [calculate_adjusted_salary, cliPairs, cliChicago,
    cliChicagoAfter, cityStateKey, lookupOne, statePairs, adjustRows,
    adjustRow, pydiv_100]
  exact round2_200

/-- CLAIM C7 (witness): a two-row run against the one-row Chicago table,
one row adjusted through the city branch and one with a missing mean. -/
theorem calculate_adjusted_salary_rowwise_witness :
    ∃ ref, lookupOne "Chicago, IL" (cliPairs cliChicago) = some ref ∧
      ([⟨"Chicago", "IL", some 200, "Chicago, IL", some 200⟩,
        ⟨"Springfield", "IL", none, "Springfield, IL", none⟩] :
          List JobOut).length =
        ([⟨"Chicago", "IL", some 200⟩, ⟨"Springfield", "IL", none⟩] :
          List JobRow).length ∧
      ∀ i (hi : i < ([⟨"Chicago", "IL", some 200⟩,
              ⟨"Springfield", "IL", none⟩] : List JobRow).length)
          (ho : i < ([⟨"Chicago", "IL", some 200, "Chicago, IL", some 200⟩,
              ⟨"Springfield", "IL", none, "Springfield, IL", none⟩] :
                List JobOut).length),
        (([⟨"Chicago", "IL", some 200, "Chicago, IL", some 200⟩,
           ⟨"Springfield", "IL", none, "Springfield, IL", none⟩] :
             List JobOut).get ⟨i, ho⟩).adjusted_salary =
          claimAdjusted ref (cliPairs cliChicago) (statePairs [])
            (([⟨"Chicago", "IL", some 200⟩,
               ⟨"Springfield", "IL", none⟩] : List JobRow).get ⟨i, hi⟩) :=
  calculate_adjusted_salary_rowwise
    [⟨"Chicago", "IL", some 200⟩, ⟨"Springfield", "IL", none⟩]
    cliChicago [] "Chicago, IL"
    [⟨"Chicago", "IL", some 200, "Chicago, IL", some 200⟩,
     ⟨"Springfield", "IL", none, "Springfield, IL", none⟩]
    cliChicagoAfter calc_run_example

theorem adjustRow_ref_city (cityTbl stTbl : List (String × ℚ)) (ref : ℚ)
    (job : JobRow) (m : ℚ) (adj : Option ℚ)
    (hm : job.mean_salary = some m)
    (hl : lookupOne (cityStateKey job.city job.state) cityTbl = some ref)
    (h : adjustRow cityTbl stTbl ref job = some adj) :
    adj = some (round2 m) := by
  unfold adjustRow at h
  simp only [hm] at h
  rw [if_pos (lookupOne_any _ _ _ hl), hl] at h
  simp only [Option.some_bind] at h
  rcases hd : pydiv ref ref with _ | r
  · rw [hd] at h
    exact Option.noConfusion h
  · rw [hd] at h
    simp only [Option.map_some'] at h
    have hrne : ref ≠ 0 := by
      intro h0
      unfold pydiv at hd
      rw [if_pos h0] at hd
      exact Option.noConfusion hd
    have hr1 : r = 1 := by
      rw [pydiv_some _ _ _ hd, div_self hrne]
    rw [hr1, mul_one] at h
    exact (Option.some.inj h).symm

/-- CLAIM C8 (amended): on a successful run, a job row whose composite
key equals the reference key exactly and whose mean salary is present
gets `round(mean, 2)` as its adjusted salary (the ratio is 1); this
equals the mean itself exactly when the mean lies on the cent grid
(mean times 100 is an integer), but not in general. -/
theorem adjusted_ref_city_round (jobs : List JobRow) (cli : CliTable)
    (st : List StateRow) (city : String) (outs : List JobOut)
    (cli2 : CliTable)
    (h : calculate_adjusted_salary jobs cli st city = some (outs, cli2))
    (i : ℕ) (hi : i < jobs.length) (ho : i < outs.length)
    (hkey : cityStateKey (jobs.get ⟨i, hi⟩).city (jobs.get ⟨i, hi⟩).state
        = city)
    (m : ℚ) (hm : (jobs.get ⟨i, hi⟩).mean_salary = some m) :
    (outs.get ⟨i, ho⟩).adjusted_salary = some (round2 m) ∧
      (∀ n : ℤ, m * 100 = (n : ℚ) →
        (outs.get ⟨i, ho⟩).adjusted_salary = some m) := by
  rcases calculate_eq_some h with ⟨ref, href, hrows, -⟩
  rcases adjustRows_get _ _ _ _ _ hrows with ⟨-, hget⟩
  rcases hget i hi ho with ⟨adj, hadj, hout⟩
  have hl : lookupOne
      (cityStateKey (jobs.get ⟨i, hi⟩).city (jobs.get ⟨i, hi⟩).state)
      (cliPairs cli) = some ref := by
    rw [hkey]
    exact href
  have hval := adjustRow_ref_city _ _ _ _ _ _ hm hl hadj
  constructor
  · rw [hout, hval]
  · intro n hn
    rw [hout, hval, round2_fix m n hn]

theorem round2_eighth : round2 ((8 : ℚ)⁻¹) = 3 / 25 := by
  have h1 : ((8 : ℚ)⁻¹) * 100 = 25 / 2 := by norm_num
  unfold round2 roundHalfEven
  rw [h1]
  have hf : (⌊(25 : ℚ) / 2⌋ : ℤ) = 12 := by
    rw [Int.floor_eq_iff]
    norm_num
  rw [hf]
  norm_num

/-- CLAIM C8 (corrected, counterexample): a job in the reference city
with the exactly representable mean salary `0.125` comes back with
adjusted salary `0.12` — the rounding to 2 decimal places breaks the
claimed equality with the mean. -/
theorem adjusted_ref_city_not_mean :
    calculate_adjusted_salary [jobEighth] cliChicago [] "Chicago, IL" =
      some ([⟨"Chicago", "IL", some (1 / 8), "Chicago, IL",
             some (3 / 25)⟩], cliChicagoAfter) ∧
      cityStateKey jobEighth.city jobEighth.state = "Chicago, IL" ∧
      (3 / 25 : ℚ) ≠ 1 / 8 := by
  refine ⟨?_, rfl, by norm_num⟩
  simp +decide [calculate_adjusted_salary, cliPairs, cliChicago,
    cliChicagoAfter, cityStateKey, lookupOne, statePairs, adjustRows,
    adjustRow, pydiv_100, jobEighth]
  exact round2_eighth

/-- CLAIM C8 (witness for the amended theorem): the reference-city row
with on-grid mean 200 comes back with adjusted salary exactly 200. -/
theorem adjusted_ref_city_round_witness :
    (([⟨"Chicago", "IL", some 200, "Chicago, IL", some 200⟩,
       ⟨"Springfield", "IL", none, "Springfield, IL", none⟩] :
         List JobOut).get ⟨0, by norm_num⟩).adjusted_salary =
      some (round2 200) ∧
      (∀ n : ℤ, (200 : ℚ) * 100 = (n : ℚ) →
        (([⟨"Chicago", "IL", some 200, "Chicago, IL", some 200⟩,
           ⟨"Springfield", "IL", none, "Springfield, IL", none⟩] :
             List JobOut).get ⟨0, by norm_num⟩).adjusted_salary =
          some 200) :=
  adjusted_ref_city_round
    [⟨"Chicago", "IL", some 200⟩, ⟨"Springfield", "IL", none⟩]
    cliChicago [] "Chicago, IL"
    [⟨"Chicago", "IL", some 200, "Chicago, IL", some 200⟩,
     ⟨"Springfield", "IL", none, "Springfield, IL", none⟩]
    cliChicagoAfter calc_run_example 0 (by norm_num) (by norm_num) rfl
    200 rfl

end JobPostings
